import Mathlib

/-!
# The global timer of `src/timer.c`

A shallow embedding of the stopwatch timer of `timer.c`. The four file-level
statics (`started`, `paused`, `start_ticks`, `pause_ticks`) become the fields
of a record that every operation receives and returns. The external tick
source `SDL_GetTicks()` is a parameter `now` of each operation that reads it:
the value the clock returned at that call. An operation whose `assert` fails
aborts the program; here it returns `none`.

`uint32_t` values are natural numbers below `2 ^ 32`, and the unsigned
subtraction of C is `sub32`.
-/

namespace RaspbianPong

/-- The modulus of `uint32_t` arithmetic, `2 ^ 32`. -/
def U32_MOD : Nat := 4294967296

/-- Unsigned 32-bit subtraction `a - b` of C, for operands below `2 ^ 32`. -/
def sub32 (a b : Nat) : Nat := (a + U32_MOD - b) % U32_MOD

/-- The `uint32_t` value that represents the integer `z`: `z` modulo `2 ^ 32`. -/
def mod32 (z : Int) : Nat := (z % 4294967296).toNat

/-- The statics of `timer.c`, lines 14 to 24. -/
structure Timer where
  started : Bool
  paused : Bool
  start_ticks : Nat
  pause_ticks : Nat
deriving DecidableEq, Repr

/-- The initial values of the statics: `false`, `false`, `0`, `0`. -/
def Timer.init : Timer := ⟨false, false, 0, 0⟩

/-- `timer_start`, lines 30 to 37: `assert(!started)`, then all four statics
are written; `now` is the value of `SDL_GetTicks()`. -/
def timer_start (s : Timer) (now : Nat) : Option Timer :=
  if s.started then none
  else some ⟨true, false, now, 0⟩

/-- `timer_stop`, lines 44 to 51: `assert(started)`, then all four statics are
cleared. -/
def timer_stop (s : Timer) : Option Timer :=
  if s.started then some ⟨false, false, 0, 0⟩
  else none

/-- `timer_reset`, lines 57 to 63: `assert(started)`; `started` is not
written. -/
def timer_reset (s : Timer) (now : Nat) : Option Timer :=
  if s.started then some ⟨s.started, false, now, 0⟩
  else none

/-- `timer_pause`, lines 69 to 76: `assert(started)`, `assert(!paused)`;
`started` is not written. -/
def timer_pause (s : Timer) (now : Nat) : Option Timer :=
  if s.started then
    if s.paused then none
    else some ⟨s.started, true, 0, sub32 now s.start_ticks⟩
  else none

/-- `timer_resume`, lines 82 to 89: `assert(started)`, `assert(paused)`;
`started` is not written. -/
def timer_resume (s : Timer) (now : Nat) : Option Timer :=
  if s.started then
    if s.paused then some ⟨s.started, false, sub32 now s.pause_ticks, 0⟩
    else none
  else none

/-- `timer_ticks`, lines 99 to 103: `assert(started)`, then
`paused ? pause_ticks : SDL_GetTicks() - start_ticks`. No static is written. -/
def timer_ticks (s : Timer) (now : Nat) : Option Nat :=
  if s.started then
    some (if s.paused then s.pause_ticks else sub32 now s.start_ticks)
  else none

/-! ## Sequences of calls -/

/-- The five commands and the query of `timer.c`. -/
inductive Op where
  | start
  | stop
  | reset
  | pause
  | resume
  | ticks
deriving DecidableEq, Repr

/-- One call of an operation with the tick source reading `now`: the statics
after the call and the value returned (only `timer_ticks` returns one), or
`none` when an assertion of the operation fails. -/
def step (s : Timer) (o : Op) (now : Nat) : Option (Timer × Option Nat) :=
  match o with
  | Op.start => (timer_start s now).map (fun s1 => (s1, none))
  | Op.stop => (timer_stop s).map (fun s1 => (s1, none))
  | Op.reset => (timer_reset s now).map (fun s1 => (s1, none))
  | Op.pause => (timer_pause s now).map (fun s1 => (s1, none))
  | Op.resume => (timer_resume s now).map (fun s1 => (s1, none))
  | Op.ticks => (timer_ticks s now).map (fun v => (s, some v))

/-- A sequence of calls, each with its tick reading, run from `s`: the statics
and the returned value after every call, in order, or `none` when some call
fails its assertion. -/
def run : Timer → List (Op × Nat) → Option (List (Timer × Option Nat))
  | _, [] => some []
  | s, (o, now) :: rest =>
    match step s o now with
    | none => none
    | some (s1, out) =>
      match run s1 rest with
      | none => none
      | some tr => some ((s1, out) :: tr)

/-- The statics after a sequence of calls run from `s`, or `none` when some
call fails its assertion. -/
def exec : Timer → List (Op × Nat) → Option Timer
  | s, [] => some s
  | s, (o, now) :: rest => (step s o now).bind (fun r => exec r.1 rest)

/-- The calls `timer_pause` at `p`, `timer_resume` at `r` for each pair
`(p, r)` of the list, in order. -/
def cycles : Timer → List (Nat × Nat) → Option Timer
  | s, [] => some s
  | s, (p, r) :: cs =>
    (timer_pause s p).bind (fun s1 =>
      (timer_resume s1 r).bind (fun s2 => cycles s2 cs))

/-! ## The specification's vocabulary -/

/-- The ticks spent running, as the specification counts them: the timer runs
from `t0` to the first pause, from each resume to the next pause, and from the
last resume to `t`. Exact integers, no wraparound. -/
def runningSum (t0 : Int) : List (Nat × Nat) → Int → Int
  | [], t => t - t0
  | (p, r) :: cs, t => ((p : Int) - t0) + runningSum (r : Int) cs t

/-- The three states of the specification. -/
inductive State where
  | Stopped
  | Running
  | Paused
deriving DecidableEq, Repr

/-- The state that the two flags encode: Stopped is `started = false`, Running
is `started = true` and `paused = false`, Paused is both `true`. -/
def Timer.state (s : Timer) : State :=
  if s.started then (if s.paused then State.Paused else State.Running)
  else State.Stopped

/-- The transition table of section 4.1 of the specification; `none` where the
operation's precondition does not hold. -/
def table : State → Op → Option State
  | State.Stopped, Op.start => some State.Running
  | State.Running, Op.stop => some State.Stopped
  | State.Paused, Op.stop => some State.Stopped
  | State.Running, Op.reset => some State.Running
  | State.Paused, Op.reset => some State.Running
  | State.Running, Op.pause => some State.Paused
  | State.Paused, Op.resume => some State.Running
  | State.Running, Op.ticks => some State.Running
  | State.Paused, Op.ticks => some State.Paused
  | _, _ => none

/-- The transition table followed along a sequence of operations: the state
after every step. -/
def tableRun : State → List Op → Option (List State)
  | _, [] => some []
  | q, o :: rest =>
    match table q o with
    | none => none
    | some q1 =>
      match tableRun q1 rest with
      | none => none
      | some qs => some (q1 :: qs)

/-! ## Reachable statics -/

/-- The statics after a sequence of calls in which a call whose assertion fails
contributes no transition: the statics stay as they were and the sequence goes
on. -/
def execSkip : Timer → List (Op × Nat) → Timer
  | s, [] => s
  | s, (o, now) :: rest =>
    match step s o now with
    | none => execSkip s rest
    | some r => execSkip r.1 rest

/-- The outcome of every call of a sequence run from `s`, in order: the statics
after the call and the value returned, or `none` for a call whose assertion
fails; such a call contributes no transition, as in `execSkip`. -/
def runSkip : Timer → List (Op × Nat) → List (Option (Timer × Option Nat))
  | _, [] => []
  | s, (o, now) :: rest =>
    match step s o now with
    | none => none :: runSkip s rest
    | some r => some r :: runSkip r.1 rest

/-- The statics reachable from the initial ones by some sequence of the five
commands and the query, every reading a `uint32_t` value. -/
def Reachable (s : Timer) : Prop :=
  ∃ ops : List (Op × Nat), (∀ x ∈ ops, x.2 < U32_MOD) ∧ execSkip Timer.init ops = s

/-- The counter that the state does not use is cleared, and `paused` is never
set while `started` is clear. -/
def Timer.Consistent (s : Timer) : Prop :=
  (s.started = false → s.paused = false ∧ s.start_ticks = 0 ∧ s.pause_ticks = 0) ∧
  (s.started = true → s.paused = false → s.pause_ticks = 0) ∧
  (s.started = true → s.paused = true → s.start_ticks = 0)

/-- Both counters hold `uint32_t` values. -/
def Timer.InRange (s : Timer) : Prop :=
  s.start_ticks < U32_MOD ∧ s.pause_ticks < U32_MOD

/-! ## A clock that does not wrap -/

/-- Neither counter is ahead of the reading `n`: while Running `start_ticks` is
at most `n`, while Paused `pause_ticks` is. Then no subtraction `n - start_ticks`
or `n - pause_ticks` underflows. -/
def Timer.Behind (s : Timer) (n : Nat) : Prop :=
  (s.state = State.Running → s.start_ticks ≤ n) ∧
  (s.state = State.Paused → s.pause_ticks ≤ n)

/-- The elapsed ticks at reading `n` in exact arithmetic, without the
assertion: the frozen `pause_ticks` when paused, `n - start_ticks` otherwise. -/
def elapsedAt (s : Timer) (n : Nat) : Nat :=
  if s.paused then s.pause_ticks else n - s.start_ticks

/-! ## Arithmetic of `uint32_t` -/

theorem sub32_lt (a b : Nat) : sub32 a b < U32_MOD := by
  unfold sub32 U32_MOD
  omega

/-- Unsigned subtraction is integer subtraction modulo `2 ^ 32`. -/
theorem sub32_eq_mod32 (a b : Nat) (hb : b ≤ U32_MOD) :
    sub32 a b = mod32 ((a : Int) - (b : Int)) := by
  unfold sub32 mod32 U32_MOD at *
  omega

theorem mod32_lt (z : Int) : mod32 z < U32_MOD := by
  unfold mod32 U32_MOD
  omega

/-- Subtracting from a reading a value already reduced modulo `2 ^ 32`. -/
theorem sub32_mod32 (a : Nat) (z : Int) :
    sub32 a (mod32 z) = mod32 ((a : Int) - z) := by
  unfold sub32 mod32 U32_MOD
  omega

/-! ## Elapsed time -/

/-- C1: from the initial timer, `timer_start` at `t0`, `timer_pause` at `t1`,
`timer_resume` at `t2` and `timer_ticks` at `t3` all succeed and the query
returns `(t1 - t0) + (t3 - t2)` modulo `2 ^ 32`. -/
theorem pause_interval_excluded (t0 t1 t2 t3 : Nat)
    (h0 : t0 < U32_MOD) (h1 : t1 < U32_MOD) (h2 : t2 < U32_MOD) (h3 : t3 < U32_MOD) :
    ((((timer_start Timer.init t0).bind (fun s => timer_pause s t1)).bind
        (fun s => timer_resume s t2)).bind (fun s => timer_ticks s t3))
      = some (mod32 (((t1 : Int) - t0) + ((t3 : Int) - t2))) := by
  simp only [timer_start, timer_pause, timer_resume, timer_ticks, Timer.init,
    Option.some_bind, Bool.false_eq_true, if_false, if_true, Option.some.injEq]
  unfold sub32 mod32 U32_MOD at *
  omega

/-- C1 at the readings 0, 10, 50, 70: the query returns 30. -/
theorem pause_interval_excluded_witness :
    (0 < U32_MOD ∧ 10 < U32_MOD ∧ 50 < U32_MOD ∧ 70 < U32_MOD) ∧
    ((((timer_start Timer.init 0).bind (fun s => timer_pause s 10)).bind
        (fun s => timer_resume s 50)).bind (fun s => timer_ticks s 70))
      = some (mod32 ((((10 : Nat) : Int) - (0 : Nat)) + (((70 : Nat) : Int) - (50 : Nat)))) ∧
    mod32 ((((10 : Nat) : Int) - (0 : Nat)) + (((70 : Nat) : Int) - (50 : Nat))) = 30 :=
  ⟨by decide,
    pause_interval_excluded 0 10 50 70 (by decide) (by decide) (by decide) (by decide),
    by decide⟩

/-- The running sum moves with its starting point. -/
theorem runningSum_shift (a : Int) (cs : List (Nat × Nat)) (t : Int) :
    runningSum a cs t = runningSum 0 cs t - a := by
  cases cs with
  | nil => simp [runningSum]
  | cons c cs =>
    obtain ⟨p, r⟩ := c
    simp only [runningSum]
    omega

/-- Pause and resume cycles keep the timer running and back-date `start_ticks`
by exactly the ticks spent paused: measured from the new `start_ticks`, any
reading `t` is `runningSum z cs t` ticks away. -/
theorem cycles_running (cs : List (Nat × Nat)) (z t : Int) :
    cycles ⟨true, false, mod32 z, 0⟩ cs
      = some ⟨true, false, mod32 (t - runningSum z cs t), 0⟩ := by
  induction cs generalizing z with
  | nil => simp [cycles, runningSum]
  | cons c cs ih =>
    obtain ⟨p, r⟩ := c
    simp only [cycles, timer_pause, timer_resume, Option.some_bind, if_true,
      Bool.false_eq_true, if_false, sub32_mod32]
    rw [ih]
    have e : t - runningSum ((r : Int) - ((p : Int) - z)) cs t
        = t - runningSum z ((p, r) :: cs) t := by
      simp only [runningSum]
      rw [runningSum_shift ((r : Int) - ((p : Int) - z)), runningSum_shift (r : Int)]
      omega
    rw [e]

/-- A reading is its own residue. -/
theorem mod32_of_lt (n : Nat) (h : n < U32_MOD) : mod32 (n : Int) = n := by
  unfold mod32 U32_MOD at *
  omega

/-- C2: for every list of pause/resume reading pairs, `timer_start` at `t0`,
the cycles and then `timer_ticks` at `t` succeed and return the ticks spent
running, `(p1 - t0) + (p2 - r1) + ... + (t - rk)` modulo `2 ^ 32`; when one
more `timer_pause` at `p` ends the sequence, `timer_ticks` returns the same sum
with `p` in place of `t` for every reading `q` at the query. -/
theorem elapsed_is_running_sum (t0 : Nat) (cs : List (Nat × Nat)) (t p q : Nat)
    (h0 : t0 < U32_MOD) :
    (((timer_start Timer.init t0).bind (fun s => cycles s cs)).bind
        (fun s => timer_ticks s t))
      = some (mod32 (runningSum (t0 : Int) cs (t : Int))) ∧
    ((((timer_start Timer.init t0).bind (fun s => cycles s cs)).bind
        (fun s => timer_pause s p)).bind (fun s => timer_ticks s q))
      = some (mod32 (runningSum (t0 : Int) cs (p : Int))) := by
  have hs : timer_start Timer.init t0 = some ⟨true, false, mod32 (t0 : Int), 0⟩ := by
    simp [timer_start, Timer.init, mod32_of_lt t0 h0]
  constructor
  · rw [hs, Option.some_bind, cycles_running cs t0 t]
    simp only [Option.some_bind, timer_ticks, if_true, Bool.false_eq_true, if_false,
      sub32_mod32, Option.some.injEq]
    congr 1
    omega
  · rw [hs, Option.some_bind, cycles_running cs t0 p]
    simp only [Option.some_bind, timer_pause, timer_ticks, if_true, Bool.false_eq_true,
      if_false, sub32_mod32, Option.some.injEq]
    congr 1
    omega

/-- C2 with two cycles: start at 5, paused from 10 to 50 and from 60 to 100,
queried at 130 gives 45; paused once more at 120 and queried at 999 gives 35. -/
theorem elapsed_is_running_sum_witness :
    5 < U32_MOD ∧
    ((((timer_start Timer.init 5).bind (fun s => cycles s [(10, 50), (60, 100)])).bind
        (fun s => timer_ticks s 130))
      = some (mod32 (runningSum ((5 : Nat) : Int) [(10, 50), (60, 100)] ((130 : Nat) : Int))) ∧
    ((((timer_start Timer.init 5).bind (fun s => cycles s [(10, 50), (60, 100)])).bind
        (fun s => timer_pause s 120)).bind (fun s => timer_ticks s 999))
      = some (mod32 (runningSum ((5 : Nat) : Int) [(10, 50), (60, 100)] ((120 : Nat) : Int)))) ∧
    mod32 (runningSum ((5 : Nat) : Int) [(10, 50), (60, 100)] ((130 : Nat) : Int)) = 45 ∧
    mod32 (runningSum ((5 : Nat) : Int) [(10, 50), (60, 100)] ((120 : Nat) : Int)) = 35 :=
  ⟨by decide, elapsed_is_running_sum 5 [(10, 50), (60, 100)] 130 120 999 (by decide),
    by decide, by decide⟩

/-- Queries of a paused timer, one after the other: each returns `pause_ticks`
and leaves the statics as they are. -/
theorem run_queries_paused (s : Timer) (hs : s.started = true) (hp : s.paused = true)
    (qs : List Nat) :
    run s (qs.map (fun q => (Op.ticks, q)))
      = some (qs.map (fun _ => (s, some s.pause_ticks))) := by
  induction qs with
  | nil => simp [run]
  | cons q qs ih => simp [run, step, timer_ticks, hs, hp, ih]

/-- C3: after `timer_start` at `t0` and `timer_pause` at `t1`, a query returns
`(t1 - t0)` modulo `2 ^ 32` for every reading `q` of the tick source, and any
number of queries in a row, at any readings `qs`, all return that value and
leave the statics unchanged. -/
theorem paused_elapsed_frozen (t0 t1 : Nat) (h0 : t0 < U32_MOD) (q : Nat) (qs : List Nat) :
    ((timer_start Timer.init t0).bind (fun s => timer_pause s t1)).bind
        (fun s => timer_ticks s q)
      = some (mod32 ((t1 : Int) - t0)) ∧
    run Timer.init ((Op.start, t0) :: (Op.pause, t1) :: qs.map (fun x => (Op.ticks, x)))
      = some ((⟨true, false, t0, 0⟩, none)
          :: (⟨true, true, 0, mod32 ((t1 : Int) - t0)⟩, none)
          :: qs.map (fun _ =>
              (⟨true, true, 0, mod32 ((t1 : Int) - t0)⟩, some (mod32 ((t1 : Int) - t0))))) := by
  have hb : t0 ≤ U32_MOD := Nat.le_of_lt h0
  constructor
  · simp [timer_start, timer_pause, timer_ticks, Timer.init, sub32_eq_mod32 t1 t0 hb]
  · have hq := run_queries_paused ⟨true, true, 0, mod32 ((t1 : Int) - t0)⟩ rfl rfl qs
    simp only [run, step, timer_start, timer_pause, Timer.init, Bool.false_eq_true,
      if_false, if_true, Option.map_some', sub32_eq_mod32 t1 t0 hb, hq]

/-- C3 at start 7 and pause 19: queries at 19, 20, 4000000000 and 3 all
return 12. -/
theorem paused_elapsed_frozen_witness :
    7 < U32_MOD ∧
    (((timer_start Timer.init 7).bind (fun s => timer_pause s 19)).bind
        (fun s => timer_ticks s 123456)
      = some (mod32 (((19 : Nat) : Int) - (7 : Nat))) ∧
    run Timer.init ((Op.start, 7) :: (Op.pause, 19)
        :: [19, 20, 4000000000, 3].map (fun x => (Op.ticks, x)))
      = some ((⟨true, false, 7, 0⟩, none)
          :: (⟨true, true, 0, mod32 (((19 : Nat) : Int) - (7 : Nat))⟩, none)
          :: [19, 20, 4000000000, 3].map (fun _ =>
              (⟨true, true, 0, mod32 (((19 : Nat) : Int) - (7 : Nat))⟩,
                some (mod32 (((19 : Nat) : Int) - (7 : Nat))))))) ∧
    mod32 (((19 : Nat) : Int) - (7 : Nat)) = 12 :=
  ⟨by decide, paused_elapsed_frozen 7 19 (by decide) 123456 [19, 20, 4000000000, 3],
    by decide⟩

/-- C4: when `t0 + N` does not wrap, `timer_start` at `t0` followed by
`timer_ticks` at `t0 + N` returns `N`; a query at the reading of the start
returns 0. -/
theorem running_elapsed_since_start (t0 N : Nat) (h : t0 + N < U32_MOD) :
    (timer_start Timer.init t0).bind (fun s => timer_ticks s (t0 + N)) = some N ∧
    (timer_start Timer.init t0).bind (fun s => timer_ticks s t0) = some 0 := by
  simp only [timer_start, timer_ticks, Timer.init, Bool.false_eq_true, if_false, if_true,
    Option.some_bind, Option.some.injEq]
  unfold sub32 U32_MOD at *
  omega

/-- C4 at the largest readings: start at `2 ^ 32 - 101`, query 100 ticks
later. -/
theorem running_elapsed_since_start_witness :
    4294967195 + 100 < U32_MOD ∧
    ((timer_start Timer.init 4294967195).bind
        (fun s => timer_ticks s (4294967195 + 100)) = some 100 ∧
      (timer_start Timer.init 4294967195).bind
        (fun s => timer_ticks s 4294967195) = some 0) :=
  ⟨by decide, running_elapsed_since_start 4294967195 100 (by decide)⟩

/-! ## Wraparound of the tick source -/

/-- C5: when the counter wrapped once between start and query (`t1 < t0`),
`timer_ticks` succeeds and returns `2 ^ 32 - t0 + t1`, `timer_pause` at `t1`
succeeds and stores that value in `pause_ticks`, and `timer_resume` of a
paused timer at a reading `now < pause_ticks` succeeds with
`start_ticks = 2 ^ 32 + now - pause_ticks`, which is `now - pause_ticks`
modulo `2 ^ 32`. -/
theorem wraparound_tolerated (t0 t1 : Nat) (h0 : t0 < U32_MOD) (h1 : t1 < t0)
    (s : Timer) (now : Nat) (hs : s.started = true) (hp : s.paused = true)
    (hr : s.pause_ticks < U32_MOD) (hn : now < s.pause_ticks) :
    (timer_start Timer.init t0).bind (fun x => timer_ticks x t1)
      = some (U32_MOD - t0 + t1) ∧
    (timer_start Timer.init t0).bind (fun x => timer_pause x t1)
      = some ⟨true, true, 0, U32_MOD - t0 + t1⟩ ∧
    timer_resume s now = some ⟨true, false, U32_MOD + now - s.pause_ticks, 0⟩ ∧
    U32_MOD + now - s.pause_ticks = mod32 ((now : Int) - s.pause_ticks) := by
  have e1 : sub32 t1 t0 = U32_MOD - t0 + t1 := by
    unfold sub32 U32_MOD at *
    omega
  have e2 : sub32 now s.pause_ticks = U32_MOD + now - s.pause_ticks := by
    unfold sub32 U32_MOD at *
    omega
  refine ⟨?_, ?_, ?_, ?_⟩
  · simp [timer_start, timer_ticks, Timer.init, e1]
  · simp [timer_start, timer_pause, Timer.init, e1]
  · simp [timer_resume, hs, hp, e2]
  · unfold mod32 U32_MOD at *
    omega

/-- C5 at start `2 ^ 32 - 6`, query and pause at 4 (10 ticks later), and a
resume at 3 of a timer paused with 10 elapsed ticks. -/
theorem wraparound_tolerated_witness :
    (4294967290 < U32_MOD ∧ 4 < 4294967290) ∧
    ((timer_start Timer.init 4294967290).bind (fun x => timer_ticks x 4)
      = some (U32_MOD - 4294967290 + 4) ∧
    (timer_start Timer.init 4294967290).bind (fun x => timer_pause x 4)
      = some ⟨true, true, 0, U32_MOD - 4294967290 + 4⟩ ∧
    timer_resume ⟨true, true, 0, 10⟩ 3
      = some ⟨true, false, U32_MOD + 3 - (⟨true, true, 0, 10⟩ : Timer).pause_ticks, 0⟩ ∧
    U32_MOD + 3 - (⟨true, true, 0, 10⟩ : Timer).pause_ticks
      = mod32 (((3 : Nat) : Int) - (⟨true, true, 0, 10⟩ : Timer).pause_ticks)) ∧
    U32_MOD - 4294967290 + 4 = 10 ∧
    U32_MOD + 3 - (⟨true, true, 0, 10⟩ : Timer).pause_ticks = 4294967289 :=
  ⟨by decide,
    wraparound_tolerated 4294967290 4 (by decide) (by decide) ⟨true, true, 0, 10⟩ 3 rfl rfl
      (by decide) (by decide),
    by decide, by decide⟩

/-! ## Reset -/

/-- C6: from every started state, `timer_reset` at `t` succeeds and yields the
running state with `start_ticks = t` and `pause_ticks = 0`; a query at the
same reading then returns 0. -/
theorem reset_zeroes_elapsed (s : Timer) (t : Nat) (hs : s.started = true) :
    timer_reset s t = some ⟨true, false, t, 0⟩ ∧
    (⟨true, false, t, 0⟩ : Timer).state = State.Running ∧
    (timer_reset s t).bind (fun x => timer_ticks x t) = some 0 := by
  have e : sub32 t t = 0 := by
    unfold sub32 U32_MOD
    omega
  simp [timer_reset, timer_ticks, Timer.state, hs, e]

/-- C6 from a paused timer holding 40 elapsed ticks, reset at 77. -/
theorem reset_zeroes_elapsed_witness :
    (⟨true, true, 0, 40⟩ : Timer).started = true ∧
    (timer_reset ⟨true, true, 0, 40⟩ 77 = some ⟨true, false, 77, 0⟩ ∧
    (⟨true, false, 77, 0⟩ : Timer).state = State.Running ∧
    (timer_reset ⟨true, true, 0, 40⟩ 77).bind (fun x => timer_ticks x 77) = some 0) :=
  ⟨rfl, reset_zeroes_elapsed ⟨true, true, 0, 40⟩ 77 rfl⟩

/-! ## The state machine -/

/-- One call moves the encoded state as the transition table says, and fails
its assertion exactly where the table has no entry. -/
theorem step_table (s : Timer) (o : Op) (now : Nat) :
    (step s o now).map (fun x => x.1.state) = table s.state o := by
  obtain ⟨st, pa, a, b⟩ := s
  cases st <;> cases pa <;> cases o <;> rfl

/-- A sequence of calls from any statics follows the transition table from the
state they encode. -/
theorem run_table (ops : List (Op × Nat)) (s : Timer) :
    (run s ops).map (fun tr => tr.map (fun x => x.1.state))
      = tableRun s.state (ops.map Prod.fst) := by
  induction ops generalizing s with
  | nil => rfl
  | cons c ops ih =>
    obtain ⟨o, now⟩ := c
    have h := step_table s o now
    simp only [run, tableRun, List.map_cons]
    cases hst : step s o now with
    | none =>
      rw [hst] at h
      simp only [Option.map_none'] at h
      rw [← h]
      rfl
    | some r =>
      obtain ⟨s1, out⟩ := r
      rw [hst] at h
      simp only [Option.map_some'] at h
      rw [← h]
      have h1 := ih s1
      cases hr : run s1 ops with
      | none =>
        rw [hr] at h1
        simp only [Option.map_none'] at h1
        simp only [hr, ← h1, Option.map_none']
      | some tr =>
        rw [hr] at h1
        simp only [Option.map_some'] at h1
        simp only [hr, ← h1, Option.map_some', List.map_cons]

/-- C7: for every sequence of operations with any tick readings, run from the
initial statics, the calls all pass their assertions exactly when every
operation's precondition holds in the transition table started from Stopped,
and then the state encoded by the flags after each step is the state the table
gives: start: Stopped to Running; stop: Running or Paused to Stopped; reset:
Running or Paused to Running; pause: Running to Paused; resume: Paused to
Running; elapsed: unchanged. -/
theorem state_follows_table (ops : List (Op × Nat)) :
    (run Timer.init ops).map (fun tr => tr.map (fun x => x.1.state))
      = tableRun State.Stopped (ops.map Prod.fst) :=
  run_table ops Timer.init

/-! ## Assertions -/

/-- While started, no call other than `timer_stop` clears `started`. -/
theorem step_keeps_started (s : Timer) (o : Op) (now : Nat) (r : Timer × Option Nat)
    (hs : s.started = true) (ho : o ≠ Op.stop) (h : step s o now = some r) :
    r.1.started = true := by
  obtain ⟨st, pa, a, b⟩ := s
  simp only at hs
  subst hs
  cases o <;> cases pa <;>
    simp [step, timer_start, timer_reset, timer_pause, timer_resume, timer_ticks] at h ho ⊢ <;>
    subst h <;> rfl

/-- A sequence of calls without `timer_stop` leaves a started timer started. -/
theorem exec_keeps_started (ops : List (Op × Nat)) (s s2 : Timer)
    (hs : s.started = true) (hno : ∀ x ∈ ops, x.1 ≠ Op.stop) (h : exec s ops = some s2) :
    s2.started = true := by
  induction ops generalizing s with
  | nil =>
    simp only [exec, Option.some.injEq] at h
    subst h
    exact hs
  | cons c ops ih =>
    obtain ⟨o, now⟩ := c
    simp only [exec] at h
    cases hst : step s o now with
    | none => simp [hst] at h
    | some r =>
      rw [hst, Option.some_bind] at h
      have h1 := step_keeps_started s o now r hs (hno (o, now) (List.mem_cons_self _ _)) hst
      exact ih r.1 h1 (fun x hx => hno x (List.mem_cons_of_mem _ hx)) h

/-- C8: `timer_start` fails its assertion exactly when the timer is started,
that is Running or Paused; and after a successful `timer_start`, whatever
calls other than `timer_stop` follow (at any readings), a further
`timer_start` fails. -/
theorem start_fails_iff_started (s : Timer) (now : Nat) :
    (timer_start s now = none ↔ s.started = true) ∧
    (timer_start s now = none ↔ (s.state = State.Running ∨ s.state = State.Paused)) ∧
    (∀ (s1 s2 : Timer) (mid : List (Op × Nat)) (t : Nat),
      timer_start s now = some s1 → (∀ x ∈ mid, x.1 ≠ Op.stop) →
      exec s1 mid = some s2 → timer_start s2 t = none) := by
  refine ⟨?_, ?_, ?_⟩
  · cases hs : s.started <;> simp [timer_start, hs]
  · cases hs : s.started <;> cases hp : s.paused <;> simp [timer_start, Timer.state, hs, hp]
  · intro s1 s2 mid t h1 hno h2
    have hs1 : s1.started = true := by
      cases hs : s.started
      · simp only [timer_start, hs, Bool.false_eq_true, if_false, Option.some.injEq] at h1
        subst h1
        rfl
      · simp [timer_start, hs] at h1
    have hs2 := exec_keeps_started mid s1 s2 hs1 hno h2
    simp [timer_start, hs2]

/-- C8 from the initial statics: start at 3, then pause, query, resume, reset
and query; the second `timer_start` fails. -/
theorem start_fails_iff_started_witness :
    timer_start Timer.init 3 = some ⟨true, false, 3, 0⟩ ∧
    (∀ x ∈ [(Op.pause, 5), (Op.ticks, 6), (Op.resume, 9), (Op.reset, 12), (Op.ticks, 20)],
      x.1 ≠ Op.stop) ∧
    exec ⟨true, false, 3, 0⟩
      [(Op.pause, 5), (Op.ticks, 6), (Op.resume, 9), (Op.reset, 12), (Op.ticks, 20)]
      = some ⟨true, false, 12, 0⟩ ∧
    timer_start ⟨true, false, 12, 0⟩ 25 = none :=
  ⟨by decide, by decide, by decide,
    (start_fails_iff_started Timer.init 3).2.2 ⟨true, false, 3, 0⟩ ⟨true, false, 12, 0⟩
      [(Op.pause, 5), (Op.ticks, 6), (Op.resume, 9), (Op.reset, 12), (Op.ticks, 20)] 25
      (by decide) (by decide) (by decide)⟩

/-- C9: while the timer is Stopped each of `timer_ticks`, `timer_pause`,
`timer_reset` and `timer_stop` fails its assertion, at every reading;
`timer_ticks`, `timer_reset` and `timer_stop` fail in no other state. The
initial statics are Stopped and so are the statics after `timer_stop`. -/
theorem stopped_rejects_calls (s : Timer) (now : Nat) :
    (timer_ticks s now = none ↔ s.state = State.Stopped) ∧
    (timer_reset s now = none ↔ s.state = State.Stopped) ∧
    (timer_stop s = none ↔ s.state = State.Stopped) ∧
    (s.state = State.Stopped → timer_pause s now = none) ∧
    Timer.init.state = State.Stopped ∧
    (∀ s1 : Timer, timer_stop s = some s1 → s1.state = State.Stopped) := by
  obtain ⟨st, pa, a, b⟩ := s
  cases st <;> cases pa <;>
    simp [timer_ticks, timer_reset, timer_stop, timer_pause, Timer.state, Timer.init]

/-- C9 at the initial statics and at the statics left by `timer_stop`. -/
theorem stopped_rejects_calls_witness :
    Timer.init.state = State.Stopped ∧
    timer_pause Timer.init 8 = none ∧
    timer_stop ⟨true, true, 0, 4⟩ = some ⟨false, false, 0, 0⟩ ∧
    (⟨false, false, 0, 0⟩ : Timer).state = State.Stopped :=
  ⟨by decide,
    (stopped_rejects_calls Timer.init 8).2.2.2.1 (by decide),
    by decide,
    (stopped_rejects_calls ⟨true, true, 0, 4⟩ 8).2.2.2.2.2 ⟨false, false, 0, 0⟩ (by decide)⟩

/-- C10: `timer_pause` succeeds exactly when the timer is Running and
`timer_resume` exactly when it is Paused, so `timer_pause` fails when Paused
or Stopped, `timer_resume` fails when Running or Stopped, and in no state do
both succeed, at any readings. -/
theorem pause_resume_complementary (s : Timer) (now now2 : Nat) :
    ((timer_pause s now).isSome = true ↔ s.state = State.Running) ∧
    ((timer_resume s now).isSome = true ↔ s.state = State.Paused) ∧
    (timer_pause s now = none ↔ (s.state = State.Paused ∨ s.state = State.Stopped)) ∧
    (timer_resume s now = none ↔ (s.state = State.Running ∨ s.state = State.Stopped)) ∧
    ¬ ((timer_pause s now).isSome = true ∧ (timer_resume s now2).isSome = true) := by
  obtain ⟨st, pa, a, b⟩ := s
  cases st <;> cases pa <;> simp [timer_pause, timer_resume, Timer.state]

/-! ## Stop and reset -/

/-- C11: from every started state `timer_stop` yields exactly the initial
statics, all four cleared; there every operation but `timer_start` fails its
assertion; and `timer_start` at `t` followed by `timer_ticks` at `t2` then
returns `(t2 - t)` modulo `2 ^ 32`, whatever the counters held before the
stop. -/
theorem stop_forgets_history (s : Timer) (now t t2 : Nat) (hs : s.started = true)
    (ht : t < U32_MOD) :
    timer_stop s = some Timer.init ∧
    Timer.init = ⟨false, false, 0, 0⟩ ∧
    (timer_ticks Timer.init now = none ∧ timer_pause Timer.init now = none ∧
      timer_resume Timer.init now = none ∧ timer_reset Timer.init now = none ∧
      timer_stop Timer.init = none) ∧
    ((timer_stop s).bind (fun x => timer_start x t)).bind (fun x => timer_ticks x t2)
      = some (mod32 ((t2 : Int) - t)) := by
  have e : sub32 t2 t = mod32 ((t2 : Int) - t) := sub32_eq_mod32 t2 t (Nat.le_of_lt ht)
  refine ⟨?_, rfl, ?_, ?_⟩
  · simp [timer_stop, hs, Timer.init]
  · simp [timer_ticks, timer_pause, timer_resume, timer_reset, timer_stop, Timer.init]
  · simp [timer_stop, timer_start, timer_ticks, hs, e]

/-- C11 from a paused timer holding 40 elapsed ticks and from a running one
started at 1000: after the stop, a start at 7 and a query at 19 give 12. -/
theorem stop_forgets_history_witness :
    ((⟨true, true, 0, 40⟩ : Timer).started = true ∧ 7 < U32_MOD) ∧
    (timer_stop ⟨true, true, 0, 40⟩ = some Timer.init ∧
    Timer.init = ⟨false, false, 0, 0⟩ ∧
    (timer_ticks Timer.init 5 = none ∧ timer_pause Timer.init 5 = none ∧
      timer_resume Timer.init 5 = none ∧ timer_reset Timer.init 5 = none ∧
      timer_stop Timer.init = none) ∧
    ((timer_stop ⟨true, true, 0, 40⟩).bind (fun x => timer_start x 7)).bind
        (fun x => timer_ticks x 19)
      = some (mod32 (((19 : Nat) : Int) - (7 : Nat)))) ∧
    ((timer_stop ⟨true, false, 1000, 0⟩).bind (fun x => timer_start x 7)).bind
        (fun x => timer_ticks x 19) = some 12 :=
  ⟨⟨rfl, by decide⟩,
    stop_forgets_history ⟨true, true, 0, 40⟩ 5 7 19 rfl (by decide),
    by decide⟩

/-- C15: `timer_reset` at `t` and `timer_stop` followed by `timer_start` at `t`
give the same outcome from every statics, and from every started state both
succeed with the same four fields: started, not paused, `start_ticks = t`,
`pause_ticks = 0`. -/
theorem reset_eq_stop_start (s : Timer) (t : Nat) :
    timer_reset s t = (timer_stop s).bind (fun x => timer_start x t) ∧
    (s.started = true →
      timer_reset s t = some ⟨true, false, t, 0⟩ ∧
      (timer_stop s).bind (fun x => timer_start x t) = some ⟨true, false, t, 0⟩) := by
  cases hs : s.started <;> simp [timer_reset, timer_stop, timer_start, hs]

/-- C15 from a paused timer holding 40 elapsed ticks and from a running one
started at 1000, both reset at 77. -/
theorem reset_eq_stop_start_witness :
    (timer_reset ⟨true, true, 0, 40⟩ 77 = some ⟨true, false, 77, 0⟩ ∧
      (timer_stop ⟨true, true, 0, 40⟩).bind (fun x => timer_start x 77)
        = some ⟨true, false, 77, 0⟩) ∧
    (timer_reset ⟨true, false, 1000, 0⟩ 77 = some ⟨true, false, 77, 0⟩ ∧
      (timer_stop ⟨true, false, 1000, 0⟩).bind (fun x => timer_start x 77)
        = some ⟨true, false, 77, 0⟩) :=
  ⟨(reset_eq_stop_start ⟨true, true, 0, 40⟩ 77).2 rfl,
    (reset_eq_stop_start ⟨true, false, 1000, 0⟩ 77).2 rfl⟩

/-! ## Invariants of the reachable statics -/

/-- Every call that passes its assertions keeps the statics consistent. -/
theorem step_consistent (s : Timer) (o : Op) (now : Nat) (r : Timer × Option Nat)
    (hc : s.Consistent) (h : step s o now = some r) : r.1.Consistent := by
  obtain ⟨st, pa, a, b⟩ := s
  cases o <;> cases st <;> cases pa <;>
    simp [step, timer_start, timer_stop, timer_reset, timer_pause, timer_resume,
      timer_ticks] at h <;>
    subst h <;> first | exact hc | simp [Timer.Consistent]

/-- Every call at a `uint32_t` reading keeps both counters in range. -/
theorem step_inRange (s : Timer) (o : Op) (now : Nat) (r : Timer × Option Nat)
    (hr : s.InRange) (hn : now < U32_MOD) (h : step s o now = some r) : r.1.InRange := by
  obtain ⟨st, pa, a, b⟩ := s
  have h0 : 0 < U32_MOD := by decide
  cases o <;> cases st <;> cases pa <;>
    simp [step, timer_start, timer_stop, timer_reset, timer_pause, timer_resume,
      timer_ticks] at h <;>
    subst h <;> first | exact hr | simp [Timer.InRange, hn, h0, sub32_lt]

/-- Consistency and range hold along every sequence of calls. -/
theorem execSkip_invariant (ops : List (Op × Nat)) (s : Timer)
    (hc : s.Consistent) (hr : s.InRange) (hn : ∀ x ∈ ops, x.2 < U32_MOD) :
    (execSkip s ops).Consistent ∧ (execSkip s ops).InRange := by
  induction ops generalizing s with
  | nil => exact ⟨hc, hr⟩
  | cons c ops ih =>
    obtain ⟨o, now⟩ := c
    have hrest : ∀ x ∈ ops, x.2 < U32_MOD := fun x hx => hn x (List.mem_cons_of_mem _ hx)
    have hnow : now < U32_MOD := hn (o, now) (List.mem_cons_self _ _)
    simp only [execSkip]
    cases hst : step s o now with
    | none => exact ih s hc hr hrest
    | some r =>
      exact ih r.1 (step_consistent s o now r hc hst) (step_inRange s o now r hr hnow hst)
        hrest

/-- The reachable statics are consistent and in range. -/
theorem reachable_invariant (s : Timer) (h : Reachable s) : s.Consistent ∧ s.InRange := by
  obtain ⟨ops, hn, rfl⟩ := h
  exact execSkip_invariant ops Timer.init (by simp [Timer.Consistent, Timer.init])
    (by simp [Timer.InRange, Timer.init, U32_MOD]) hn

/-- A sequence in which every call passes its assertions ends where the same
sequence ends when failed calls are skipped. -/
theorem exec_some_execSkip (ops : List (Op × Nat)) (s s2 : Timer)
    (h : exec s ops = some s2) : execSkip s ops = s2 := by
  induction ops generalizing s with
  | nil =>
    simp only [exec, Option.some.injEq] at h
    exact h
  | cons c ops ih =>
    obtain ⟨o, now⟩ := c
    simp only [exec] at h
    simp only [execSkip]
    cases hst : step s o now with
    | none => simp [hst] at h
    | some r =>
      rw [hst, Option.some_bind] at h
      exact ih r.1 h

/-- C12: in every reachable statics `paused = true` implies `started = true`;
the pair `started = false`, `paused = true` does not occur, and the two flags
are one of the three encodings of Stopped, Running and Paused. -/
theorem paused_implies_started (s : Timer) (h : Reachable s) :
    (s.paused = true → s.started = true) ∧
    ¬ (s.started = false ∧ s.paused = true) ∧
    ((s.state = State.Stopped ∧ s.started = false ∧ s.paused = false) ∨
      (s.state = State.Running ∧ s.started = true ∧ s.paused = false) ∨
      (s.state = State.Paused ∧ s.started = true ∧ s.paused = true)) := by
  have hc := (reachable_invariant s h).1
  obtain ⟨st, pa, a, b⟩ := s
  cases st <;> cases pa <;> simp [Timer.Consistent, Timer.state] at hc ⊢

/-- C12 at the statics reached by start at 3, a failing second start, pause at
5, stop, a failing resume, start at 9 and pause at 11. -/
theorem paused_implies_started_witness :
    Reachable ⟨true, true, 0, 2⟩ ∧
    (((⟨true, true, 0, 2⟩ : Timer).paused = true → (⟨true, true, 0, 2⟩ : Timer).started = true) ∧
    ¬ ((⟨true, true, 0, 2⟩ : Timer).started = false ∧ (⟨true, true, 0, 2⟩ : Timer).paused = true) ∧
    (((⟨true, true, 0, 2⟩ : Timer).state = State.Stopped ∧
        (⟨true, true, 0, 2⟩ : Timer).started = false ∧
        (⟨true, true, 0, 2⟩ : Timer).paused = false) ∨
      ((⟨true, true, 0, 2⟩ : Timer).state = State.Running ∧
        (⟨true, true, 0, 2⟩ : Timer).started = true ∧
        (⟨true, true, 0, 2⟩ : Timer).paused = false) ∨
      ((⟨true, true, 0, 2⟩ : Timer).state = State.Paused ∧
        (⟨true, true, 0, 2⟩ : Timer).started = true ∧
        (⟨true, true, 0, 2⟩ : Timer).paused = true))) :=
  have hreach : Reachable ⟨true, true, 0, 2⟩ :=
    ⟨[(Op.start, 3), (Op.start, 4), (Op.pause, 5), (Op.stop, 6), (Op.resume, 7),
        (Op.start, 9), (Op.pause, 11)], by decide, by decide⟩
  ⟨hreach, paused_implies_started ⟨true, true, 0, 2⟩ hreach⟩

/-- C13: in every reachable statics the counter that the state does not use is
cleared: `pause_ticks = 0` when Running, `start_ticks = 0` when Paused, both 0
when Stopped. -/
theorem unused_counter_cleared (s : Timer) (h : Reachable s) :
    (s.state = State.Running → s.pause_ticks = 0) ∧
    (s.state = State.Paused → s.start_ticks = 0) ∧
    (s.state = State.Stopped → s.start_ticks = 0 ∧ s.pause_ticks = 0) := by
  have hc := (reachable_invariant s h).1
  obtain ⟨st, pa, a, b⟩ := s
  cases st <;> cases pa <;> simp [Timer.Consistent, Timer.state] at hc ⊢ <;> simp [hc]

/-- C13 at the statics reached by start at 3, pause at 5 and resume at 9. -/
theorem unused_counter_cleared_witness :
    Reachable ⟨true, false, 7, 0⟩ ∧
    (((⟨true, false, 7, 0⟩ : Timer).state = State.Running →
        (⟨true, false, 7, 0⟩ : Timer).pause_ticks = 0) ∧
    ((⟨true, false, 7, 0⟩ : Timer).state = State.Paused →
        (⟨true, false, 7, 0⟩ : Timer).start_ticks = 0) ∧
    ((⟨true, false, 7, 0⟩ : Timer).state = State.Stopped →
        (⟨true, false, 7, 0⟩ : Timer).start_ticks = 0 ∧
        (⟨true, false, 7, 0⟩ : Timer).pause_ticks = 0)) :=
  have hreach : Reachable ⟨true, false, 7, 0⟩ :=
    ⟨[(Op.start, 3), (Op.pause, 5), (Op.resume, 9)], by decide, by decide⟩
  ⟨hreach, unused_counter_cleared ⟨true, false, 7, 0⟩ hreach⟩

/-! ## Pause and resume at one reading -/

/-- Subtracting twice from the same reading gives back a `uint32_t` value. -/
theorem sub32_sub32_cancel (t a : Nat) (ha : a < U32_MOD) : sub32 t (sub32 t a) = a := by
  unfold sub32 U32_MOD at *
  omega

/-- C14: on a reachable Running statics `timer_pause` at `t` followed by
`timer_resume` at `t` succeeds and returns the statics it started from, for
every reading `t` (also `t < start_ticks`); on a reachable Paused statics
`timer_resume` at `t` followed by `timer_pause` at `t` does. -/
theorem pause_resume_inverse (s : Timer) (t : Nat) (h : Reachable s) :
    (s.state = State.Running →
      (timer_pause s t).bind (fun x => timer_resume x t) = some s) ∧
    (s.state = State.Paused →
      (timer_resume s t).bind (fun x => timer_pause x t) = some s) := by
  obtain ⟨hc, hr⟩ := reachable_invariant s h
  obtain ⟨st, pa, a, b⟩ := s
  simp only [Timer.InRange] at hr
  cases st <;> cases pa <;>
    simp [Timer.Consistent, Timer.state, timer_pause, timer_resume] at hc ⊢
  · exact ⟨sub32_sub32_cancel t a hr.1, hc.symm⟩
  · exact ⟨hc.symm, sub32_sub32_cancel t b hr.2⟩

/-- C14 on the statics running since 100, paused and resumed at 5 (before
`start_ticks`), and on the statics paused with 2 elapsed ticks, resumed and
paused at 1. -/
theorem pause_resume_inverse_witness :
    (Reachable ⟨true, false, 100, 0⟩ ∧
      (⟨true, false, 100, 0⟩ : Timer).state = State.Running ∧
      timer_pause ⟨true, false, 100, 0⟩ 5 = some ⟨true, true, 0, 4294967201⟩ ∧
      (timer_pause ⟨true, false, 100, 0⟩ 5).bind (fun x => timer_resume x 5)
        = some ⟨true, false, 100, 0⟩) ∧
    (Reachable ⟨true, true, 0, 2⟩ ∧
      (⟨true, true, 0, 2⟩ : Timer).state = State.Paused ∧
      timer_resume ⟨true, true, 0, 2⟩ 1 = some ⟨true, false, 4294967295, 0⟩ ∧
      (timer_resume ⟨true, true, 0, 2⟩ 1).bind (fun x => timer_pause x 1)
        = some ⟨true, true, 0, 2⟩) :=
  have hrun : Reachable ⟨true, false, 100, 0⟩ := ⟨[(Op.start, 100)], by decide, by decide⟩
  have hpau : Reachable ⟨true, true, 0, 2⟩ :=
    ⟨[(Op.start, 3), (Op.pause, 5)], by decide, by decide⟩
  ⟨⟨hrun, by decide, by decide,
      (pause_resume_inverse ⟨true, false, 100, 0⟩ 5 hrun).1 (by decide)⟩,
    ⟨hpau, by decide, by decide,
      (pause_resume_inverse ⟨true, true, 0, 2⟩ 1 hpau).2 (by decide)⟩⟩

/-! ## The query is read-only -/

/-- A query inserted after `pre` adds its own entry to the trace and changes no
other entry; the sequence with the query runs exactly when the sequence
without it runs and the query passes its own assertion. -/
theorem run_insert_query (pre post : List (Op × Nat)) (s : Timer) (q : Nat) :
    run s (pre ++ (Op.ticks, q) :: post)
      = (exec s pre).bind (fun s1 =>
          (timer_ticks s1 q).bind (fun v =>
            (run s (pre ++ post)).map (fun tr =>
              tr.take pre.length ++ (s1, some v) :: tr.drop pre.length))) := by
  induction pre generalizing s with
  | nil =>
    simp only [List.nil_append, run, step, exec, Option.some_bind, List.length_nil,
      List.take_zero, List.drop_zero]
    cases ht : timer_ticks s q <;> cases hr : run s post <;> simp [ht, hr]
  | cons c pre ih =>
    obtain ⟨o, now⟩ := c
    simp only [List.cons_append, run, exec, List.length_cons, List.append_eq]
    cases hst : step s o now with
    | none => rfl
    | some r =>
      obtain ⟨s2, out⟩ := r
      simp only [Option.some_bind]
      rw [ih s2]
      cases he : exec s2 pre with
      | none => rfl
      | some s1 =>
        cases ht : timer_ticks s1 q with
        | none => simp [ht]
        | some v => cases hr : run s2 (pre ++ post) <;> simp [ht, hr]

/-- A query inserted anywhere adds its own outcome and changes no other
outcome, when a call whose assertion fails contributes no transition. -/
theorem runSkip_insert_query (pre post : List (Op × Nat)) (s : Timer) (q : Nat) :
    runSkip s (pre ++ (Op.ticks, q) :: post)
      = (runSkip s (pre ++ post)).take pre.length
          ++ step (execSkip s pre) Op.ticks q :: (runSkip s (pre ++ post)).drop pre.length := by
  induction pre generalizing s with
  | nil =>
    simp only [List.nil_append, runSkip, execSkip, List.length_nil, List.take_zero,
      List.drop_zero]
    cases hs : s.started <;> simp [step, timer_ticks, hs]
  | cons c pre ih =>
    obtain ⟨o, now⟩ := c
    simp only [List.cons_append, runSkip, execSkip, List.length_cons]
    cases hst : step s o now with
    | none => simp [ih s]
    | some r => simp [ih r.1]

/-- C16: on every started statics and at every reading `timer_ticks` succeeds
and leaves `started`, `paused`, `start_ticks` and `pause_ticks` as they were.
Hence a sequence with a query put after any prefix `pre` has the trace of the
sequence without it, with the entry of the query added: the statics after, and
the value returned by, every other call are the same, whether the query is
inserted or removed. The query itself must pass its assertion, as it does on
every started statics; and when a call whose assertion fails contributes no
transition, the outcomes of all other calls are the same wherever the query is
put. -/
theorem query_read_only (s : Timer) (pre post : List (Op × Nat)) (q : Nat) :
    (s.started = true →
      ∃ v, timer_ticks s q = some v ∧ step s Op.ticks q = some (s, some v)) ∧
    run s (pre ++ (Op.ticks, q) :: post)
      = (exec s pre).bind (fun s1 =>
          (timer_ticks s1 q).bind (fun v =>
            (run s (pre ++ post)).map (fun tr =>
              tr.take pre.length ++ (s1, some v) :: tr.drop pre.length))) ∧
    runSkip s (pre ++ (Op.ticks, q) :: post)
      = (runSkip s (pre ++ post)).take pre.length
          ++ step (execSkip s pre) Op.ticks q
            :: (runSkip s (pre ++ post)).drop pre.length := by
  refine ⟨?_, run_insert_query pre post s q, runSkip_insert_query pre post s q⟩
  intro hs
  simp [step, timer_ticks, hs]

/-- C16 on the paused statics holding 10 elapsed ticks, and on the sequence
start at 0, pause at 10, resume at 50, query at 70 with a query at 33 put
after the pause: the other four entries of the trace stay, and the later query
still returns 30. -/
theorem query_read_only_witness :
    ((⟨true, true, 0, 10⟩ : Timer).started = true ∧
      ∃ v, timer_ticks ⟨true, true, 0, 10⟩ 33 = some v ∧
        step ⟨true, true, 0, 10⟩ Op.ticks 33 = some (⟨true, true, 0, 10⟩, some v)) ∧
    run Timer.init ([(Op.start, 0), (Op.pause, 10)] ++ [(Op.resume, 50), (Op.ticks, 70)])
      = some [(⟨true, false, 0, 0⟩, none), (⟨true, true, 0, 10⟩, none),
          (⟨true, false, 40, 0⟩, none), (⟨true, false, 40, 0⟩, some 30)] ∧
    run Timer.init
        ([(Op.start, 0), (Op.pause, 10)] ++ (Op.ticks, 33) :: [(Op.resume, 50), (Op.ticks, 70)])
      = some [(⟨true, false, 0, 0⟩, none), (⟨true, true, 0, 10⟩, none),
          (⟨true, true, 0, 10⟩, some 10),
          (⟨true, false, 40, 0⟩, none), (⟨true, false, 40, 0⟩, some 30)] :=
  ⟨⟨rfl, (query_read_only ⟨true, true, 0, 10⟩ [] [] 33).1 rfl⟩, by decide, by decide⟩

/-- The read-only property under the abort model: a query on a Stopped timer fails its
own assertion and the run ends there, here before the start at 0; with failed
calls skipped the start has the same outcome with and without the query. -/
theorem query_while_stopped :
    run Timer.init [(Op.ticks, 0), (Op.start, 0)] = none ∧
    run Timer.init [(Op.start, 0)] = some [(⟨true, false, 0, 0⟩, none)] ∧
    runSkip Timer.init [(Op.ticks, 0), (Op.start, 0)]
      = [none, some (⟨true, false, 0, 0⟩, none)] ∧
    runSkip Timer.init [(Op.start, 0)] = [some (⟨true, false, 0, 0⟩, none)] :=
  ⟨by decide, by decide, by decide, by decide⟩

/-! ## Elapsed time under a clock that does not wrap -/

/-- Unsigned subtraction is exact when it does not underflow. -/
theorem sub32_exact (a b : Nat) (hb : b ≤ a) (ha : a < U32_MOD) : sub32 a b = a - b := by
  unfold sub32 U32_MOD at *
  omega

/-- A later reading keeps the counters behind. -/
theorem behind_mono (s : Timer) (lo hi : Nat) (h : s.Behind lo) (hle : lo ≤ hi) :
    s.Behind hi :=
  ⟨fun hs => Nat.le_trans (h.1 hs) hle, fun hs => Nat.le_trans (h.2 hs) hle⟩

/-- A call at a reading not before the last one keeps the counters behind. -/
theorem step_behind (s : Timer) (o : Op) (lo now : Nat) (r : Timer × Option Nat)
    (hb : s.Behind lo) (hle : lo ≤ now) (hn : now < U32_MOD)
    (h : step s o now = some r) : r.1.Behind now := by
  have hb2 := behind_mono s lo now hb hle
  obtain ⟨st, pa, a, b⟩ := s
  cases o <;> cases st <;> cases pa <;>
    simp [step, timer_start, timer_stop, timer_reset, timer_pause, timer_resume,
      timer_ticks] at h <;>
    subst h <;>
    first
      | exact hb2
      | (simp [Timer.Behind, Timer.state] at hb2 ⊢
         try (rw [sub32_exact _ _ hb2 hn]; omega))

/-- Along a sequence with non-decreasing `uint32_t` readings the counters stay
behind the clock. -/
theorem exec_behind (ops : List (Op × Nat)) (s s2 : Timer) (lo hi : Nat)
    (hb : s.Behind lo) (hle : lo ≤ hi)
    (hlo : ∀ x ∈ ops, lo ≤ x.2) (hhi : ∀ x ∈ ops, x.2 ≤ hi)
    (hp : ops.Pairwise (fun a b => a.2 ≤ b.2)) (hn : ∀ x ∈ ops, x.2 < U32_MOD)
    (h : exec s ops = some s2) : s2.Behind hi := by
  induction ops generalizing s lo with
  | nil =>
    simp only [exec, Option.some.injEq] at h
    subst h
    exact behind_mono s lo hi hb hle
  | cons c ops ih =>
    obtain ⟨o, now⟩ := c
    simp only [exec] at h
    rw [List.pairwise_cons] at hp
    cases hst : step s o now with
    | none => simp [hst] at h
    | some r =>
      rw [hst, Option.some_bind] at h
      have hmem : (o, now) ∈ (o, now) :: ops := List.mem_cons_self _ _
      have hb1 := step_behind s o lo now r hb (hlo _ hmem) (hn _ hmem) hst
      exact ih r.1 now hb1 (hhi _ hmem) (fun x hx => hp.1 x hx)
        (fun x hx => hhi x (List.mem_cons_of_mem _ hx)) hp.2
        (fun x hx => hn x (List.mem_cons_of_mem _ hx)) h

/-- A pause, a resume or a query at a reading not before the last one does not
lower the elapsed ticks. -/
theorem step_elapsed_mono (s : Timer) (o : Op) (lo now : Nat) (r : Timer × Option Nat)
    (hs : s.started = true) (hb : s.Behind lo) (hle : lo ≤ now) (hn : now < U32_MOD)
    (ho : o ≠ Op.start ∧ o ≠ Op.stop ∧ o ≠ Op.reset)
    (h : step s o now = some r) :
    r.1.started = true ∧ elapsedAt s lo ≤ elapsedAt r.1 now := by
  obtain ⟨st, pa, a, b⟩ := s
  simp only at hs
  subst hs
  cases o <;> cases pa <;>
    simp [step, timer_pause, timer_resume, timer_ticks] at h ho <;>
    subst h <;>
    simp [Timer.Behind, Timer.state, elapsedAt] at hb ⊢
  · rw [sub32_exact now a (Nat.le_trans hb hle) hn]
    omega
  · rw [sub32_exact now b (Nat.le_trans hb hle) hn]
    omega
  · omega

/-- Between two readings with only pauses, resumes and queries in between, the
elapsed ticks do not go down. -/
theorem exec_elapsed_mono (ops : List (Op × Nat)) (s s2 : Timer) (lo hi : Nat)
    (hs : s.started = true) (hb : s.Behind lo) (hle : lo ≤ hi)
    (hlo : ∀ x ∈ ops, lo ≤ x.2) (hhi : ∀ x ∈ ops, x.2 ≤ hi)
    (hp : ops.Pairwise (fun a b => a.2 ≤ b.2)) (hn : ∀ x ∈ ops, x.2 < U32_MOD)
    (hmid : ∀ x ∈ ops, x.1 ≠ Op.start ∧ x.1 ≠ Op.stop ∧ x.1 ≠ Op.reset)
    (h : exec s ops = some s2) :
    s2.started = true ∧ elapsedAt s lo ≤ elapsedAt s2 hi := by
  induction ops generalizing s lo with
  | nil =>
    simp only [exec, Option.some.injEq] at h
    subst h
    refine ⟨hs, ?_⟩
    unfold elapsedAt
    split <;> omega
  | cons c ops ih =>
    obtain ⟨o, now⟩ := c
    simp only [exec] at h
    rw [List.pairwise_cons] at hp
    cases hst : step s o now with
    | none => simp [hst] at h
    | some r =>
      rw [hst, Option.some_bind] at h
      have hmem : (o, now) ∈ (o, now) :: ops := List.mem_cons_self _ _
      have hb1 := step_behind s o lo now r hb (hlo _ hmem) (hn _ hmem) hst
      have h1 := step_elapsed_mono s o lo now r hs hb (hlo _ hmem) (hn _ hmem)
        (hmid _ hmem) hst
      have h2 := ih r.1 now h1.1 hb1 (hhi _ hmem) (fun x hx => hp.1 x hx)
        (fun x hx => hhi x (List.mem_cons_of_mem _ hx)) hp.2
        (fun x hx => hn x (List.mem_cons_of_mem _ hx))
        (fun x hx => hmid x (List.mem_cons_of_mem _ hx)) h
      exact ⟨h2.1, Nat.le_trans h1.2 h2.2⟩

/-- With the counters behind the reading, the query returns the exact elapsed
ticks. -/
theorem timer_ticks_exact (s : Timer) (q : Nat) (hs : s.started = true)
    (hb : s.Behind q) (hq : q < U32_MOD) : timer_ticks s q = some (elapsedAt s q) := by
  obtain ⟨st, pa, a, b⟩ := s
  simp only at hs
  subst hs
  cases pa <;> simp [timer_ticks, elapsedAt, Timer.Behind, Timer.state] at hb ⊢
  exact sub32_exact q a hb hq

/-- The trace of a sequence that runs splits at every point into the trace of
the part before, which ends in the statics the part after runs from. -/
theorem run_append_some (a b : List (Op × Nat)) (s : Timer)
    (tr : List (Timer × Option Nat)) (h : run s (a ++ b) = some tr) :
    ∃ ta tb sa, run s a = some ta ∧ exec s a = some sa ∧ run sa b = some tb ∧
      tr = ta ++ tb ∧ ta.length = a.length := by
  induction a generalizing s tr with
  | nil => exact ⟨[], tr, s, rfl, rfl, h, rfl, rfl⟩
  | cons c a ih =>
    obtain ⟨o, now⟩ := c
    simp only [List.cons_append, run, List.append_eq] at h
    cases hst : step s o now with
    | none => simp [hst] at h
    | some r =>
      obtain ⟨s1, out⟩ := r
      simp only [hst] at h
      cases hr : run s1 (a ++ b) with
      | none => simp [hr] at h
      | some tr1 =>
        simp only [hr, Option.some.injEq] at h
        obtain ⟨ta, tb, sa, h1, h2, h3, h4, h5⟩ := ih s1 tr1 hr
        refine ⟨(s1, out) :: ta, tb, sa, ?_, ?_, h3, ?_, ?_⟩
        · simp [run, hst, h1]
        · simp [exec, hst, h2]
        · rw [← h, h4]
          rfl
        · simp [h5]

/-- A query at the head of a sequence that runs: it passed its assertion, and
its entry heads the trace. -/
theorem run_query_cons (s : Timer) (q : Nat) (rest : List (Op × Nat))
    (tr : List (Timer × Option Nat)) (h : run s ((Op.ticks, q) :: rest) = some tr) :
    ∃ v tr1, s.started = true ∧ timer_ticks s q = some v ∧ run s rest = some tr1 ∧
      tr = (s, some v) :: tr1 := by
  simp only [run, step] at h
  cases hs : s.started with
  | false => simp [timer_ticks, hs] at h
  | true =>
    cases ht : timer_ticks s q with
    | none => simp [ht] at h
    | some v =>
      simp only [ht, Option.map_some'] at h
      cases hr : run s rest with
      | none => simp [hr] at h
      | some tr1 =>
        simp only [hr, Option.some.injEq] at h
        exact ⟨v, tr1, rfl, rfl, rfl, h.symm⟩

/-- The initial counters are behind every reading. -/
theorem init_behind (n : Nat) : Timer.init.Behind n := by
  simp [Timer.Behind, Timer.state, Timer.init]

/-- C17: take a sequence of calls from the initial statics whose readings are
non-decreasing `uint32_t` values and in which every call passes its assertion.
Then of any two queries with no `timer_start`, `timer_stop` or `timer_reset`
between them the earlier returns at most what the later returns. And before
every call the counter it subtracts is at most the reading: `start_ticks` when
Running (`timer_pause`, `timer_ticks`), `pause_ticks` when Paused
(`timer_resume`), so the unsigned subtraction is exact; after the call
`start_ticks` is at most the reading when Running. -/
theorem elapsed_never_decreases (ops : List (Op × Nat)) (tr : List (Timer × Option Nat))
    (hp : ops.Pairwise (fun a b => a.2 ≤ b.2)) (hn : ∀ x ∈ ops, x.2 < U32_MOD)
    (hrun : run Timer.init ops = some tr) :
    (∀ (pre mid post : List (Op × Nat)) (q1 q2 : Nat),
      ops = pre ++ (Op.ticks, q1) :: (mid ++ (Op.ticks, q2) :: post) →
      (∀ x ∈ mid, x.1 ≠ Op.start ∧ x.1 ≠ Op.stop ∧ x.1 ≠ Op.reset) →
      ∃ ta tm tc sa sb v1 v2,
        tr = ta ++ (sa, some v1) :: (tm ++ (sb, some v2) :: tc) ∧
        ta.length = pre.length ∧ tm.length = mid.length ∧ v1 ≤ v2) ∧
    (∀ (pre post : List (Op × Nat)) (o : Op) (now : Nat) (s : Timer),
      ops = pre ++ (o, now) :: post → exec Timer.init pre = some s →
      (s.state = State.Running →
        s.start_ticks ≤ now ∧ sub32 now s.start_ticks = now - s.start_ticks) ∧
      (s.state = State.Paused →
        s.pause_ticks ≤ now ∧ sub32 now s.pause_ticks = now - s.pause_ticks) ∧
      (∀ r, step s o now = some r → r.1.state = State.Running → r.1.start_ticks ≤ now)) := by
  constructor
  · intro pre mid post q1 q2 hops hmid
    subst hops
    rw [List.pairwise_append] at hp
    obtain ⟨hp1, hp2, hp3⟩ := hp
    rw [List.pairwise_cons] at hp2
    obtain ⟨hq1, hp4⟩ := hp2
    rw [List.pairwise_append] at hp4
    obtain ⟨hpm, -, hp6⟩ := hp4
    have hq1M : q1 < U32_MOD := hn (Op.ticks, q1) (by simp)
    have hq2M : q2 < U32_MOD := hn (Op.ticks, q2) (by simp)
    have hq12 : q1 ≤ q2 := hq1 (Op.ticks, q2) (by simp)
    obtain ⟨ta, tb, sa, -, hsa, hrb, htr, hta⟩ := run_append_some pre _ Timer.init tr hrun
    obtain ⟨v1, tb1, hsa1, hv1, hrb1, htb⟩ := run_query_cons sa q1 _ tb hrb
    obtain ⟨tm, tc1, sb, -, hsb, hrc, htb1, htm⟩ := run_append_some mid _ sa tb1 hrb1
    obtain ⟨v2, tc, -, hv2, -, htc⟩ := run_query_cons sb q2 post tc1 hrc
    have hba : sa.Behind q1 :=
      exec_behind pre Timer.init sa 0 q1 (init_behind 0) (Nat.zero_le _)
        (fun x _ => Nat.zero_le _) (fun x hx => hp3 x hx (Op.ticks, q1) (by simp)) hp1
        (fun x hx => hn x (by simp [hx])) hsa
    have hmlo : ∀ x ∈ mid, q1 ≤ x.2 := fun x hx => hq1 x (by simp [hx])
    have hmhi : ∀ x ∈ mid, x.2 ≤ q2 := fun x hx => hp6 x hx (Op.ticks, q2) (by simp)
    have hmM : ∀ x ∈ mid, x.2 < U32_MOD := fun x hx => hn x (by simp [hx])
    have hbb : sb.Behind q2 :=
      exec_behind mid sa sb q1 q2 hba hq12 hmlo hmhi hpm hmM hsb
    obtain ⟨hsb1, hmono⟩ :=
      exec_elapsed_mono mid sa sb q1 q2 hsa1 hba hq12 hmlo hmhi hpm hmM hmid hsb
    rw [timer_ticks_exact sa q1 hsa1 hba hq1M, Option.some.injEq] at hv1
    rw [timer_ticks_exact sb q2 hsb1 hbb hq2M, Option.some.injEq] at hv2
    refine ⟨ta, tm, tc, sa, sb, v1, v2, ?_, hta, htm, ?_⟩
    · rw [htr, htb, htb1, htc]
    · omega
  · intro pre post o now s hops hs
    subst hops
    rw [List.pairwise_append] at hp
    obtain ⟨hp1, -, hp3⟩ := hp
    have hnow : now < U32_MOD := hn (o, now) (by simp)
    have hb : s.Behind now :=
      exec_behind pre Timer.init s 0 now (init_behind 0) (Nat.zero_le _)
        (fun x _ => Nat.zero_le _) (fun x hx => hp3 x hx (o, now) (by simp)) hp1
        (fun x hx => hn x (by simp [hx])) hs
    refine ⟨fun h => ⟨hb.1 h, sub32_exact _ _ (hb.1 h) hnow⟩,
      fun h => ⟨hb.2 h, sub32_exact _ _ (hb.2 h) hnow⟩, ?_⟩
    intro r hr hrun2
    exact (step_behind s o now now r hb (Nat.le_refl _) hnow hr).1 hrun2

/-- C17 on start at 0, query at 5, pause at 10, query at 33, resume at 50,
query at 70: the queries return 5, 10 and 30; the first and the last are
compared across the pause and the resume, and the subtraction of the pause at
10 is exact. -/
theorem elapsed_never_decreases_witness :
    (List.Pairwise (fun a b => a.2 ≤ b.2)
        ([(Op.start, 0), (Op.ticks, 5), (Op.pause, 10),
          (Op.ticks, 33), (Op.resume, 50), (Op.ticks, 70)] : List (Op × Nat)) ∧
      (∀ x ∈ ([(Op.start, 0), (Op.ticks, 5), (Op.pause, 10),
          (Op.ticks, 33), (Op.resume, 50), (Op.ticks, 70)] : List (Op × Nat)),
        x.2 < U32_MOD) ∧
      run Timer.init
          [(Op.start, 0), (Op.ticks, 5), (Op.pause, 10),
            (Op.ticks, 33), (Op.resume, 50), (Op.ticks, 70)]
        = some [(⟨true, false, 0, 0⟩, none), (⟨true, false, 0, 0⟩, some 5),
          (⟨true, true, 0, 10⟩, none), (⟨true, true, 0, 10⟩, some 10),
          (⟨true, false, 40, 0⟩, none), (⟨true, false, 40, 0⟩, some 30)]) ∧
    (∃ ta tm tc sa sb v1 v2,
      ([(⟨true, false, 0, 0⟩, none), (⟨true, false, 0, 0⟩, some 5),
          (⟨true, true, 0, 10⟩, none), (⟨true, true, 0, 10⟩, some 10),
          (⟨true, false, 40, 0⟩, none), (⟨true, false, 40, 0⟩, some 30)] :
          List (Timer × Option Nat))
        = ta ++ (sa, some v1) :: (tm ++ (sb, some v2) :: tc) ∧
      ta.length = [(Op.start, 0)].length ∧
      tm.length = [(Op.pause, 10), (Op.ticks, 33), (Op.resume, 50)].length ∧ v1 ≤ v2) ∧
    (((⟨true, false, 0, 0⟩ : Timer).state = State.Running →
        (⟨true, false, 0, 0⟩ : Timer).start_ticks ≤ 10 ∧
        sub32 10 (⟨true, false, 0, 0⟩ : Timer).start_ticks
          = 10 - (⟨true, false, 0, 0⟩ : Timer).start_ticks) ∧
      ((⟨true, false, 0, 0⟩ : Timer).state = State.Paused →
        (⟨true, false, 0, 0⟩ : Timer).pause_ticks ≤ 10 ∧
        sub32 10 (⟨true, false, 0, 0⟩ : Timer).pause_ticks
          = 10 - (⟨true, false, 0, 0⟩ : Timer).pause_ticks) ∧
      (∀ r, step ⟨true, false, 0, 0⟩ Op.pause 10 = some r →
        r.1.state = State.Running → r.1.start_ticks ≤ 10)) :=
  have h := elapsed_never_decreases
    [(Op.start, 0), (Op.ticks, 5), (Op.pause, 10),
      (Op.ticks, 33), (Op.resume, 50), (Op.ticks, 70)]
    [(⟨true, false, 0, 0⟩, none), (⟨true, false, 0, 0⟩, some 5),
          (⟨true, true, 0, 10⟩, none), (⟨true, true, 0, 10⟩, some 10),
          (⟨true, false, 40, 0⟩, none), (⟨true, false, 40, 0⟩, some 30)]
    (by decide) (by decide) (by decide)
  ⟨⟨by decide, by decide, by decide⟩,
    h.1 [(Op.start, 0)] [(Op.pause, 10), (Op.ticks, 33), (Op.resume, 50)] [] 5 70 rfl
      (by decide),
    h.2 [(Op.start, 0), (Op.ticks, 5)] [(Op.ticks, 33), (Op.resume, 50), (Op.ticks, 70)]
      Op.pause 10 ⟨true, false, 0, 0⟩ rfl (by decide)⟩

end RaspbianPong
